import Mathlib

/- Verification development for the GGSIPU results crawler (grc.py).

   The script is shallowly embedded: network effects (HTTP responses, the
   external PDF parser, cloud upload failures, random key generation) are
   passed in as explicit function parameters, the Firebase realtime database
   is modelled as a flat path-indexed partial map on which `update` merges a
   partial mapping (one overwrite per key, left to right), and the driver
   `main` is a fold over the diffed entry list threading an explicit run
   state (store contents, cursor file, image-upload flag).  Each definition
   mirrors the corresponding Python function of grc.py. -/

namespace GRC

/-- A listing entry as scraped by scrap_result_tr: date, whitespace-normalised
title, absolute url.  Equality is structural, as for python dicts. -/
structure Entry where
  date : String
  title : String
  url : String
deriving DecidableEq

/-- One listing page as seen by get_result_pdfs: the entries scraped from it
and the href of the "older results" link, when the auto-style1 cell with an
anchor carrying an href is present. -/
structure Page where
  entries : List Entry
  next_href : Option String

/-- get_result_pdfs from grc.py.  `pages` abstracts the HTTP fetch + soup
scraping of one page, `ujoin` abstracts urljoin.  The second component counts
the pages fetched.  Recursion is structural on the depth argument, which the
code strictly decrements, so the function is total. -/
def get_result_pdfs (pages : String → Page) (ujoin : String → String → String)
    (url : String) : Nat → List Entry × Nat
  | 0 => ((pages url).entries, 1)
  | Nat.succ d =>
    match (pages url).next_href with
    | some href =>
      let sub := get_result_pdfs pages ujoin (ujoin url href) d
      ((pages url).entries ++ sub.1, 1 + sub.2)
    | none => ((pages url).entries, 1)

/-- The scan loop of new_result_pdfs: append entries while they differ from
the stored cursor, stop at the first structurally equal one. -/
def diffLoop (l : Entry) : List Entry → List Entry
  | [] => []
  | pdf :: rest => if pdf ≠ l then pdf :: diffLoop l rest else []

/-- new_result_pdfs from grc.py, with the loaded cursor and the walked listing
passed explicitly: no cursor or force-all returns everything, otherwise the
prefix strictly before the first entry equal to the cursor. -/
def new_result_pdfs (all_pdfs : List Entry) (last : Option Entry)
    (force_all : Bool) : List Entry :=
  match last, force_all with
  | none, _ => all_pdfs
  | some _, true => all_pdfs
  | some l, false => diffLoop l all_pdfs

/-- Boolean test that the first list starts the second one. -/
def listStartsWith : List Char → List Char → Bool
  | [], _ => true
  | _ :: _, [] => false
  | a :: as, b :: bs => a == b && listStartsWith as bs

/-- Boolean substring occurrence on character lists. -/
def occursIn (needle : List Char) : List Char → Bool
  | [] => needle.isEmpty
  | c :: rest => listStartsWith needle (c :: rest) || occursIn needle rest

/-- The python test "text/html" in content_type. -/
def containsTextHtml (ct : String) : Bool :=
  occursIn "text/html".toList ct.toList

/-- The parts of a requests response inspected by download_file.  `content`
is None exactly when resp.content is None (an empty body is some []), and
`content_type` is the Content-Type header, none when the header is missing
(in which case the python dict lookup raises KeyError). -/
structure HttpResponse where
  status_code : Nat
  content : Option (List Nat)
  text : String
  content_type : Option String
deriving DecidableEq

/-- The value download_file hands back on success: resp.text when html_allow,
resp.content otherwise. -/
inductive Payload where
  | bytes : List Nat → Payload
  | txt : String → Payload
deriving DecidableEq

/-- The body of download_file's try block: the python condition
(not status == 200) or (content is None) or ("text/html" in headers[CT] and
not html_allow) raises, evaluated left to right with the header lookup itself
raising KeyError when the header is absent.  `resp = none` models the get
call itself raising. -/
def download_attempt (resp : Option HttpResponse) (html_allow : Bool) :
    Except Unit Payload :=
  match resp with
  | none => Except.error ()
  | some r =>
    if r.status_code ≠ 200 then Except.error ()
    else if r.content.isNone then Except.error ()
    else
      match r.content_type with
      | none => Except.error ()
      | some ct =>
        if containsTextHtml ct && !html_allow then Except.error ()
        else Except.ok (if html_allow then Payload.txt r.text
                        else Payload.bytes (r.content.getD []))

/-- download_file from grc.py: on any failure of the try block, re-raise when
raise_ex and return None otherwise. -/
def download_file (resp : Option HttpResponse) (html_allow : Bool)
    (raise_ex : Bool) : Except Unit (Option Payload) :=
  match download_attempt resp html_allow with
  | Except.ok v => Except.ok (some v)
  | Except.error e => if raise_ex then Except.error e else Except.ok none

/-- A record produced by the external parser for one person.  Fields that the
python code tests against None are Options; numeric source fields are kept as
the strings they are formatted to in store paths. -/
structure PersonRecord where
  institution_code : Option String
  institution_name : Option String
  batch : Option String
  roll_num : Option String
  student_name : Option String
  programme_code : Option String
  programme_name : Option String
  examination_name : Option String
  semester : Option String
  marks : List (String × String)
  image : Option Unit
deriving DecidableEq

/-- The dict built by _generate_result_dict. -/
structure ResultVal where
  examination_name : Option String
  marks : List (String × String)
  semester : Option String
  pdf_info : Entry
deriving DecidableEq

/-- A value stored in the realtime database: a (possibly null) string leaf or
a result dict. -/
inductive Val where
  | s : Option String → Val
  | res : ResultVal → Val
deriving DecidableEq

/-- The database under server/data, as a flat map from slash-separated paths
to values. -/
abbrev Store := String → Option Val

/-- Python dict assignment d[k] = v: overwrite in place when the key exists,
append otherwise. -/
def assocSet {V : Type} (d : List (String × V)) (k : String) (v : V) :
    List (String × V) :=
  if d.any (fun kv => kv.1 == k) then
    d.map (fun kv => if kv.1 == k then (k, v) else kv)
  else d ++ [(k, v)]

/-- Overwrite one path of the store. -/
def storeSetPath (s : Store) (p : String) (v : Val) : Store :=
  fun q => if q = p then some v else s q

/-- Modelled from the spec: the abstract store's update(path, partial-mapping)
merge of the external Firebase collaborator (spec section 6): every key of the
mapping is written under the base path, other paths keep their prior value. -/
def storeUpdate (s : Store) (base : String) (kvs : List (String × Val)) :
    Store :=
  kvs.foldl (fun acc kv => storeSetPath acc (base ++ "/" ++ kv.1) kv.2) s

/-- The pointwise effect of one merge step at a fixed path p, used to reason
about storeUpdate. -/
def updStep (base p : String) (acc : Option Val) (kv : String × Val) :
    Option Val :=
  if p = base ++ "/" ++ kv.1 then some kv.2 else acc

/-- Format an optional field into a path fragment, as an f-string does; all
uses are guarded by _check_result so the default is never taken. -/
def optStr (o : Option String) : String := o.getD ""

/-- Python truthiness of an optional string: None and "" are falsy. -/
def isTruthy (o : Option String) : Bool :=
  match o with
  | none => false
  | some v => !v.isEmpty

/-- FirebaseDump._check_result: institution code, batch and roll number are
all not None. -/
def check_result (r : PersonRecord) : Bool :=
  r.institution_code.isSome && r.batch.isSome && r.roll_num.isSome

/-- The guard of _process_institutions: _check_result(r) and r.institution_name
(python truthiness of the name). -/
def validWithName (r : PersonRecord) : Bool :=
  check_result r && isTruthy r.institution_name

/-- The institution code as it appears in store paths. -/
def instCodeStr (r : PersonRecord) : String := optStr r.institution_code

/-- The base key institution_code/batch/roll_num of _process_students. -/
def pathOf (r : PersonRecord) : String :=
  optStr r.institution_code ++ "/" ++ optStr r.batch ++ "/" ++
    optStr r.roll_num

/-- The storage blob name of _upload_student_image. -/
def imgPath (r : PersonRecord) : String :=
  "photos/students/" ++ optStr r.roll_num ++ ".jpeg"

/-- One iteration of the _process_institutions loop: records passing the
guard assign code -> name into the dict, the rest only log a warning. -/
def instFold (d : List (String × String)) (r : PersonRecord) :
    List (String × String) :=
  if validWithName r then
    assocSet d (instCodeStr r) (optStr r.institution_name)
  else d

/-- The inst_dict of _process_institutions: code -> name over records passing
the guard, built by dict assignment in list order. -/
def instDict (results : List PersonRecord) : List (String × String) :=
  results.foldl instFold []

/-- FirebaseDump._process_institutions: one bulk update at institutions when
the collected dict is non-empty; records failing the guard are only logged. -/
def process_institutions (results : List PersonRecord) (s : Store) : Store :=
  let d := instDict results
  if d.length > 0 then
    storeUpdate s "institutions" (d.map (fun kv => (kv.1, Val.s (some kv.2))))
  else s

/-- The update_dict of _process_students: four field writes per valid record
under its base key. -/
def studentDict (results : List PersonRecord) : List (String × Val) :=
  results.foldl
    (fun d r =>
      if check_result r then
        assocSet
          (assocSet
            (assocSet
              (assocSet d (pathOf r ++ "/name") (Val.s r.student_name))
              (pathOf r ++ "/programme_code") (Val.s r.programme_code))
            (pathOf r ++ "/programme_name") (Val.s r.programme_name))
          (pathOf r ++ "/batch") (Val.s r.batch)
      else d)
    []

/-- FirebaseDump._process_students: one bulk update at students when the
collected dict is non-empty. -/
def process_students (results : List PersonRecord) (s : Store) : Store :=
  let d := studentDict results
  if d.length > 0 then storeUpdate s "students" d else s

/-- _generate_result_dict from grc.py. -/
def generate_result_dict (r : PersonRecord) (pdf_info : Entry) : ResultVal :=
  { examination_name := r.examination_name, marks := r.marks,
    semester := r.semester, pdf_info := pdf_info }

/-- The res_dict of _process_results: one entry per valid record at
base/results/generated-key; `keygen` abstracts generate_key(15), indexed by a
draw counter threaded through the run. -/
def resultsDict (keygen : Nat → String) (results : List PersonRecord)
    (pdf_info : Entry) (k0 : Nat) : List (String × Val) × Nat :=
  results.foldl
    (fun acc r =>
      if check_result r then
        (assocSet acc.1 (pathOf r ++ "/results/" ++ keygen acc.2)
          (Val.res (generate_result_dict r pdf_info)), acc.2 + 1)
      else acc)
    ([], k0)

/-- FirebaseDump._process_results: one bulk update at students when the
collected dict is non-empty; also returns the advanced key counter. -/
def process_results (keygen : Nat → String) (results : List PersonRecord)
    (pdf_info : Entry) (s : Store) (k0 : Nat) : Store × Nat :=
  let dk := resultsDict keygen results pdf_info k0
  (if dk.1.length > 0 then storeUpdate s "students" dk.1 else s, dk.2)

/-- FirebaseDump.dump_subjects: a single update (merge) of toDict(subs) at the
fixed path subjects, only when the subject map is non-empty. -/
def dump_subjects (subs : List (String × String)) (s : Store) : Store :=
  if subs.length > 0 then
    storeUpdate s "subjects"
      (subs.map (fun kv => (kv.1, Val.s (some kv.2))))
  else s

/-- The mutable state threaded through one run of the script: the database
contents, the generated-key draw counter, the blobs uploaded so far, the
upload attempt counter, the sticky img_upload_error flag of FirebaseDump,
the cursor file last.json, and a trace of the entries whose processing fully
completed, in completion order. -/
structure RunState where
  store : Store
  keyCounter : Nat
  uploaded : List String
  attempts : Nat
  img_error : Bool
  last : Option Entry
  processed : List Entry

/-- The for loop of dump_images: records failing the guard are skipped with a
warning; an upload attempt either succeeds (the blob is recorded) or raises,
which sets the sticky flag and breaks out of the loop.  `fails` is the
external failure oracle, indexed by the attempt counter. -/
def dump_images_loop (fails : Nat → Bool) :
    List PersonRecord → RunState → RunState
  | [], st => st
  | r :: rest, st =>
    if check_result r && r.image.isSome then
      if fails st.attempts then
        { st with attempts := st.attempts + 1, img_error := true }
      else
        dump_images_loop fails rest
          { st with attempts := st.attempts + 1,
                    uploaded := st.uploaded ++ [imgPath r] }
    else dump_images_loop fails rest st

/-- FirebaseDump.dump_images: a no-op once img_upload_error is set. -/
def dump_images (fails : Nat → Bool) (results : List PersonRecord)
    (st : RunState) : RunState :=
  if st.img_error then st else dump_images_loop fails results st

/-- The three command line options relevant to the pipeline. -/
structure Env where
  skip_data : Bool
  skip_images : Bool
  force_all : Bool

/-- The external world of one run: the HTTP responses per url, the external
PDF parser (which may raise), the upload failure oracle and the random key
stream. -/
structure World where
  http : String → Option HttpResponse
  parse : List Nat → Except Unit (List (String × String) × List PersonRecord)
  fails : Nat → Bool
  keygen : Nat → String

/-- The data handed to a dump by set_data. -/
structure DumpData where
  pdf_info : Entry
  subs : List (String × String)
  results : List PersonRecord

/-- FirebaseDump.dump_results: institutions, then students, then results. -/
def dump_results (world : World) (results : List PersonRecord)
    (pdf_info : Entry) (s : Store) (k0 : Nat) : Store × Nat :=
  let s1 := process_institutions results s
  let s2 := process_students results s1
  process_results world.keygen results pdf_info s2 k0

/-- BaseDump.start for the FirebaseDump: data dumps unless skip-data, then
the image dump unless skip-images. -/
def start (env : Env) (world : World) (d : DumpData) (st : RunState) :
    RunState :=
  let st1 :=
    if env.skip_data then st
    else
      let rk := dump_results world d.results d.pdf_info st.store st.keyCounter
      { st with store := dump_subjects d.subs rk.1, keyCounter := rk.2 }
  if env.skip_images then st1 else dump_images world.fails d.results st1

/-- The outcome of the fetch-and-parse prelude of one iteration of main's
loop. -/
inductive StepOut where
  | skip
  | abort
  | ok : List (String × String) → List PersonRecord → StepOut

/-- The prelude of one loop iteration of main: download_file with default
flags, the walrus truthiness test on the returned bytes (None and b are both
falsy), then parse_result_pdf whose exception unwinds to main's top-level
handler.  With raise_ex false download_file never raises and with html_allow
false it never returns text, so the catch-all only covers the falsy cases. -/
def fetch_parse (world : World) (e : Entry) : StepOut :=
  match download_file (world.http e.url) false false with
  | Except.ok (some (Payload.bytes b)) =>
    if b.isEmpty then StepOut.skip
    else
      match world.parse b with
      | Except.error _ => StepOut.abort
      | Except.ok sr => StepOut.ok sr.1 sr.2
  | _ => StepOut.skip

/-- The entry successfully fetches and parses in this world. -/
def fetchParseOk (world : World) (e : Entry) : Prop :=
  ∃ subs results, fetch_parse world e = StepOut.ok subs results

/-- The for loop of main over reversed(pdf_infos): a falsy download skips the
entry and continues, a parser exception aborts the whole remaining batch (it
is caught only by main's outermost handler), and a processed entry runs
start() and then dump_last, recorded in the cursor field and the completion
trace. -/
def mainLoop (env : Env) (world : World) :
    List Entry → RunState → RunState
  | [], st => st
  | pdf_info :: rest, st =>
    match fetch_parse world pdf_info with
    | StepOut.skip => mainLoop env world rest st
    | StepOut.abort => st
    | StepOut.ok subs results =>
      let st1 := start env world
        { pdf_info := pdf_info, subs := subs, results := results } st
      mainLoop env world rest
        { st1 with last := some pdf_info,
                   processed := st1.processed ++ [pdf_info] }

/-- main from grc.py, with the walked listing passed explicitly: diff against
the stored cursor, then process the diffed batch oldest first. -/
def mainRun (env : Env) (world : World) (all_pdfs : List Entry)
    (st : RunState) : RunState :=
  mainLoop env world (new_result_pdfs all_pdfs st.last env.force_all).reverse st

/-- A store transformer that, at every path, either always preserves the
input or always writes a fixed value; bulk updates are of this shape. -/
def Overwriting (U : Store → Store) : Prop :=
  ∀ p, (∀ s, U s p = s p) ∨ (∃ v, ∀ s, U s p = v)

/-- Institution and student upserts for one record, in dump_results order. -/
def sync_record (r : PersonRecord) (s : Store) : Store :=
  process_students [r] (process_institutions [r] s)

/-- The empty database. -/
def emptyStore : Store := fun _ => none

/-- A successful binary response. -/
def respOk : HttpResponse :=
  { status_code := 200, content := some [1, 2, 3], text := "",
    content_type := some "application/pdf" }

/-- A 200 response with an empty (but not None) body. -/
def respEmptyBody : HttpResponse :=
  { status_code := 200, content := some [], text := "",
    content_type := some "application/pdf" }

/-- Default option set: nothing skipped, no force-all. -/
def env0 : Env :=
  { skip_data := false, skip_images := false, force_all := false }

/-- Both skip options set. -/
def envSkipAll : Env :=
  { skip_data := true, skip_images := true, force_all := false }

/-- A world where every fetch succeeds, parsing yields nothing, uploads never
fail. -/
def worldOk : World :=
  { http := fun _ => some respOk, parse := fun _ => Except.ok ([], []),
    fails := fun _ => false, keygen := fun _ => "key" }

/-- The initial run state: empty store, no cursor. -/
def st0 : RunState :=
  { store := emptyStore, keyCounter := 0, uploaded := [], attempts := 0,
    img_error := false, last := none, processed := [] }

/-- Newest listing entry of the C1 scenario. -/
def e1 : Entry := ⟨"04/02/2021", "Result of B.Tech", "http://host/r1.pdf"⟩

/-- Older listing entry of the C1 scenario, whose fetch fails. -/
def e2 : Entry := ⟨"03/02/2021", "Result of BBA", "http://host/r2.pdf"⟩

/-- A world where fetching e2 fails and every other fetch succeeds. -/
def worldC1 : World :=
  { worldOk with http := fun u => if u = e2.url then none else some respOk }

/-- A fully populated, store-addressable record. -/
def rGood : PersonRecord :=
  { institution_code := some "164", institution_name := some "USICT",
    batch := some "2018", roll_num := some "41516401518",
    student_name := some "A Student", programme_code := some "027",
    programme_name := some "B.Tech", examination_name := some "Regular",
    semester := some "1", marks := [("15101", "75")], image := some () }

/-- A record passing _check_result but with institution_name = None. -/
def rNoName : PersonRecord := { rGood with institution_name := none }

/-- A store with pre-existing content under subjects. -/
def priorStore : Store :=
  fun p => if p = "subjects/OLD" then some (Val.s (some "OldName")) else none

/-- A duplicated listing entry for the C3 counterexample. -/
def eDup : Entry := ⟨"01/01/2021", "Result A", "http://x/a.pdf"⟩

/-- Listing entries for scenario witnesses. -/
def wA : Entry := ⟨"03/01/2021", "Result C", "http://x/c.pdf"⟩

/-- Second witness entry. -/
def wB : Entry := ⟨"02/01/2021", "Result D", "http://x/d.pdf"⟩

/-- Third witness entry. -/
def wC : Entry := ⟨"01/01/2021", "Result E", "http://x/e.pdf"⟩

/-- A world whose first upload attempt already fails. -/
def worldFail : World := { worldOk with fails := fun _ => true }

/-- The walker returns the scanned prefix of the listing followed by the rest
of the listing, the scanned prefix never contains the cursor, and the rest,
when non-empty, starts with the cursor. -/
theorem diffLoop_decomp (l : Entry) (xs : List Entry) :
    ∃ suffix, xs = diffLoop l xs ++ suffix ∧
      (∀ e, e ∈ diffLoop l xs → e ≠ l) ∧
      (suffix = [] ∨ ∃ t, suffix = l :: t) := by
  induction xs with
  | nil => exact ⟨[], by simp [diffLoop], by simp [diffLoop], Or.inl rfl⟩
  | cons x rest ih =>
    by_cases hx : x = l
    · subst hx
      exact ⟨x :: rest, by simp [diffLoop], by simp [diffLoop],
        Or.inr ⟨rest, rfl⟩⟩
    · obtain ⟨suf, hsuf, hne, hsh⟩ := ih
      refine ⟨suf, ?_, ?_, hsh⟩
      · simpa [diffLoop, hx] using hsuf
      · intro e he
        simp only [diffLoop, if_pos hx] at he
        rcases List.mem_cons.mp he with he1 | he2
        · exact he1 ▸ hx
        · exact hne e he2

/-- When the cursor occurs nowhere, the scan returns the whole listing. -/
theorem diffLoop_not_mem (l : Entry) (xs : List Entry) (h : l ∉ xs) :
    diffLoop l xs = xs := by
  induction xs with
  | nil => rfl
  | cons x rest ih =>
    have hx : x ≠ l := fun he => h (he ▸ List.mem_cons_self x rest)
    have hrest : l ∉ rest := fun hm => h (List.mem_cons_of_mem _ hm)
    simp [diffLoop, hx, ih hrest]

/-- When the cursor is the k-th entry and occurs at no earlier index, the
scan returns exactly the first k entries. -/
theorem diffLoop_take_of_first : ∀ (xs : List Entry) (k : Nat)
    (hk : k < xs.length),
    (∀ j, (hj : j < k) → xs.get ⟨j, hj.trans hk⟩ ≠ xs.get ⟨k, hk⟩) →
    diffLoop (xs.get ⟨k, hk⟩) xs = xs.take k := by
  intro xs
  induction xs with
  | nil => intro k hk; simp at hk
  | cons x rest ih =>
    intro k hk hfirst
    cases k with
    | zero => simp [diffLoop]
    | succ k =>
      have hklt : k < rest.length := Nat.lt_of_succ_lt_succ hk
      have hx : x ≠ (x :: rest).get ⟨k + 1, hk⟩ := hfirst 0 (Nat.succ_pos k)
      have hget : (x :: rest).get ⟨k + 1, hk⟩ = rest.get ⟨k, hklt⟩ := rfl
      rw [hget] at hx
      have hrest : ∀ j, (hj : j < k) →
          rest.get ⟨j, hj.trans hklt⟩ ≠ rest.get ⟨k, hklt⟩ := by
        intro j hj
        exact hfirst (j + 1) (Nat.succ_lt_succ hj)
      rw [hget]
      simp only [diffLoop, if_pos hx, List.take_succ_cons, List.cons.injEq,
        true_and]
      exact ih k hklt hrest

/-- C3 (amended): with no cursor or with forceAll the diff returns the whole
sequence unchanged; with a cursor it returns the prefix strictly before the
first entry structurally equal to the cursor (the whole sequence when the
cursor never occurs); and diff(entries, entries[k], false) = entries[0:k]
provided no earlier index holds an entry equal to entries[k]. -/
theorem C3_diff_characterization : ∀ (entries : List Entry) (l : Entry)
    (force_all : Bool) (k : Nat) (hk : k < entries.length),
    new_result_pdfs entries none force_all = entries
    ∧ new_result_pdfs entries (some l) true = entries
    ∧ (l ∉ entries → new_result_pdfs entries (some l) false = entries)
    ∧ (∃ suffix, entries = new_result_pdfs entries (some l) false ++ suffix
        ∧ (∀ e, e ∈ new_result_pdfs entries (some l) false → e ≠ l)
        ∧ (suffix = [] ∨ ∃ t, suffix = l :: t))
    ∧ ((∀ j, (hj : j < k) →
          entries.get ⟨j, hj.trans hk⟩ ≠ entries.get ⟨k, hk⟩) →
        new_result_pdfs entries (some (entries.get ⟨k, hk⟩)) false
          = entries.take k) := by
  intro entries l force_all k hk
  refine ⟨rfl, rfl, ?_, ?_, ?_⟩
  · exact fun h => diffLoop_not_mem l entries h
  · exact diffLoop_decomp l entries
  · exact fun h => diffLoop_take_of_first entries k hk h

/-- C3 counterexample: in a listing with a duplicated entry, the cursor equal
to entries[1] yields the empty diff, not entries[0:1] as the claim states. -/
theorem C3_diff_counterexample :
    [eDup, eDup].get ⟨1, by decide⟩ = eDup
    ∧ new_result_pdfs [eDup, eDup] (some eDup) false
        ≠ List.take 1 [eDup, eDup] := by
  exact ⟨rfl, by decide⟩

/-- C3 witness: the characterization instantiated on a concrete two-entry
listing with a cursor at index 1. -/
theorem C3_diff_witness :
    new_result_pdfs [wA, wB] none false = [wA, wB]
    ∧ new_result_pdfs [wA, wB] (some ([wA, wB].get ⟨1, by decide⟩)) false
        = List.take 1 [wA, wB] := by
  have hk1 : 1 < [wA, wB].length := by decide
  have h := C3_diff_characterization [wA, wB] wB false 1 hk1
  refine ⟨h.1, ?_⟩
  have hfirst : ∀ j, (hj : j < 1) →
      [wA, wB].get ⟨j, hj.trans hk1⟩ ≠ [wA, wB].get ⟨1, hk1⟩ := by
    intro j hj
    have hj0 : j = 0 := Nat.lt_one_iff.mp hj
    subst hj0
    show wA ≠ wB
    decide
  exact h.2.2.2.2 hfirst

/-- C8: walking with depth d fetches at most d + 1 pages (the recursion is
structural on the strictly decreasing depth, hence total), and depth 0
returns this page only, fetching exactly one page and never consulting the
older-page link, even on a page linking to itself. -/
theorem C8_walker_bound : ∀ (pages : String → Page)
    (ujoin : String → String → String) (url : String) (d : Nat),
    (get_result_pdfs pages ujoin url d).2 ≤ d + 1
    ∧ get_result_pdfs pages ujoin url 0 = ((pages url).entries, 1) := by
  intro pages ujoin url d
  refine ⟨?_, rfl⟩
  induction d generalizing url with
  | zero => simp [get_result_pdfs]
  | succ n ih =>
    cases h : (pages url).next_href with
    | none => simp [get_result_pdfs, h]
    | some href =>
      have hs := ih (ujoin url href)
      simp only [get_result_pdfs, h]
      omega

/-- C8 witness: the bound applied to an adversarial world where every page
links back to itself. -/
theorem C8_walker_bound_witness :
    (get_result_pdfs (fun _ => ⟨[], some "self"⟩) (fun _ h => h) "self" 3).2
      ≤ 4
    ∧ get_result_pdfs (fun _ => ⟨[], some "self"⟩) (fun _ h => h) "self" 0
        = ([], 1) := by
  exact C8_walker_bound (fun _ => ⟨[], some "self"⟩) (fun _ h => h) "self" 3

/-- C7 (amended): with default flags the fetch returns payload bytes exactly
when the response has status 200, a body that is present (not null; an empty
body is returned as an empty payload), and a Content-Type header present and
not containing text/html; otherwise it returns none, and in raise mode it
raises exactly when the default mode returns none, agreeing on successes. -/
theorem C7_fetch_contract : ∀ (ro : Option HttpResponse) (r : HttpResponse)
    (b : List Nat),
    ((download_file (some r) false false
        = Except.ok (some (Payload.bytes b)))
      ↔ (r.status_code = 200 ∧ r.content = some b
          ∧ ∃ ct, r.content_type = some ct ∧ containsTextHtml ct = false))
    ∧ ((download_file ro false true = Except.error ())
        ↔ (download_file ro false false = Except.ok none))
    ∧ (∀ p, (download_file ro false true = Except.ok (some p))
        ↔ (download_file ro false false = Except.ok (some p))) := by
  intro ro r b
  refine ⟨?_, ?_, ?_⟩
  · rcases r with ⟨sc, co, tx, cto⟩
    simp only [download_file, download_attempt]
    by_cases h1 : sc = 200
    · subst h1
      cases co with
      | none => simp
      | some bb =>
        cases cto with
        | none => simp
        | some ct =>
          by_cases hct : containsTextHtml ct
          · simp [hct]
          · simp [hct]
    · simp [h1]
  · cases h : download_attempt ro false with
    | ok v => simp [download_file, h]
    | error e => cases e; simp [download_file, h]
  · intro p
    cases h : download_attempt ro false with
    | ok v => simp [download_file, h]
    | error e => cases e; simp [download_file, h]

/-- C7 counterexample: a 200 response with an empty but present body and a
binary content type is returned as an (empty) payload, where the claim
requires the fetch to return none for empty bodies. -/
theorem C7_fetch_counterexample :
    respEmptyBody.status_code = 200
    ∧ respEmptyBody.content = some []
    ∧ containsTextHtml "application/pdf" = false
    ∧ download_file (some respEmptyBody) false false
        = Except.ok (some (Payload.bytes [])) := by
  exact ⟨rfl, rfl, by decide, rfl⟩

/-- C7 witness: the contract applied to a concrete successful response. -/
theorem C7_fetch_witness :
    download_file (some respOk) false false
      = Except.ok (some (Payload.bytes [1, 2, 3])) := by
  exact (C7_fetch_contract (some respOk) respOk [1, 2, 3]).1.mpr
    ⟨rfl, rfl, "application/pdf", rfl, by decide⟩

/-- Pointwise reading of a bulk merge: the value at p is a left fold of the
per-key overwrite steps over the prior value. -/
theorem storeUpdate_apply : ∀ (kvs : List (String × Val)) (s : Store)
    (base p : String),
    storeUpdate s base kvs p = kvs.foldl (updStep base p) (s p) := by
  intro kvs
  induction kvs with
  | nil => intro s base p; rfl
  | cons kv rest ih =>
    intro s base p
    have h1 : storeUpdate s base (kv :: rest) p
        = storeUpdate (storeSetPath s (base ++ "/" ++ kv.1) kv.2) base rest p :=
      rfl
    rw [h1, ih, List.foldl_cons]
    have h2 : storeSetPath s (base ++ "/" ++ kv.1) kv.2 p
        = updStep base p (s p) kv := rfl
    rw [h2]

/-- The prior value only matters when no key of the mapping hits p: the fold
either returns the last matching write, independent of the start value, or
the start value itself. -/
theorem foldl_updStep_init : ∀ (kvs : List (String × Val)) (base p : String)
    (init : Option Val),
    kvs.foldl (updStep base p) init
      = match kvs.foldl (updStep base p) none with
        | some v => some v
        | none => init := by
  intro kvs base p
  induction kvs with
  | nil => intro init; rfl
  | cons kv rest ih =>
    intro init
    rw [List.foldl_cons, List.foldl_cons, ih (updStep base p init kv),
      ih (updStep base p none kv)]
    cases hM : rest.foldl (updStep base p) none with
    | some v => rfl
    | none =>
      by_cases hc : p = base ++ "/" ++ kv.1
      · simp [updStep, hc]
      · simp [updStep, hc]

/-- A fold whose keys all miss p returns the start value. -/
theorem foldl_updStep_no_match : ∀ (kvs : List (String × Val))
    (base p : String) (init : Option Val),
    (∀ kv, kv ∈ kvs → ¬ p = base ++ "/" ++ kv.1) →
    kvs.foldl (updStep base p) init = init := by
  intro kvs base p
  induction kvs with
  | nil => intro init _; rfl
  | cons kv rest ih =>
    intro init h
    rw [List.foldl_cons]
    have h2 : updStep base p init kv = init := by
      simp [updStep, h kv (List.mem_cons_self _ _)]
    rw [h2]
    exact ih init (fun kv' hm => h kv' (List.mem_cons_of_mem _ hm))

/-- The fold either leaves the start value alone or returns the value of a
matching key of the mapping. -/
theorem foldl_updStep_dichotomy : ∀ (kvs : List (String × Val))
    (base p : String) (init : Option Val),
    kvs.foldl (updStep base p) init = init
    ∨ ∃ kv, kv ∈ kvs ∧ p = base ++ "/" ++ kv.1
        ∧ kvs.foldl (updStep base p) init = some kv.2 := by
  intro kvs base p
  induction kvs with
  | nil => intro init; exact Or.inl rfl
  | cons kv rest ih =>
    intro init
    rw [List.foldl_cons]
    by_cases hc : p = base ++ "/" ++ kv.1
    · have h2 : updStep base p init kv = some kv.2 := by simp [updStep, hc]
      rw [h2]
      rcases ih (some kv.2) with h | ⟨kv', hm, hp', he⟩
      · exact Or.inr ⟨kv, List.mem_cons_self _ _, hc, h⟩
      · exact Or.inr ⟨kv', List.mem_cons_of_mem _ hm, hp', he⟩
    · have h2 : updStep base p init kv = init := by simp [updStep, hc]
      rw [h2]
      rcases ih init with h | ⟨kv', hm, hp', he⟩
      · exact Or.inl h
      · exact Or.inr ⟨kv', List.mem_cons_of_mem _ hm, hp', he⟩

/-- Starting from an already written value the fold stays written: the result
is the start value or a later matching write. -/
theorem foldl_updStep_some : ∀ (kvs : List (String × Val)) (base p : String)
    (v0 : Val),
    ∃ v, kvs.foldl (updStep base p) (some v0) = some v
      ∧ (v = v0 ∨ ∃ kv, kv ∈ kvs ∧ p = base ++ "/" ++ kv.1 ∧ kv.2 = v) := by
  intro kvs base p v0
  rcases foldl_updStep_dichotomy kvs base p (some v0) with h | ⟨kv, hm, hp', he⟩
  · exact ⟨v0, h, Or.inl rfl⟩
  · exact ⟨kv.2, he, Or.inr ⟨kv, hm, hp', rfl⟩⟩

/-- When some key of the mapping hits p, the fold from none produces the
value of a matching key. -/
theorem foldl_updStep_mem_some : ∀ (kvs : List (String × Val))
    (base p : String) (kv0 : String × Val), kv0 ∈ kvs →
    p = base ++ "/" ++ kv0.1 →
    ∃ v, kvs.foldl (updStep base p) none = some v
      ∧ ∃ kv, kv ∈ kvs ∧ p = base ++ "/" ++ kv.1 ∧ kv.2 = v := by
  intro kvs base p
  induction kvs with
  | nil => intro kv0 hm _; exact absurd hm (List.not_mem_nil kv0)
  | cons kv rest ih =>
    intro kv0 hm hp
    rw [List.foldl_cons]
    rcases List.mem_cons.mp hm with he | hm'
    · subst he
      have h2 : updStep base p none kv0 = some kv0.2 := by simp [updStep, hp]
      rw [h2]
      obtain ⟨v, hv, hsh⟩ := foldl_updStep_some rest base p kv0.2
      refine ⟨v, hv, ?_⟩
      rcases hsh with rfl | ⟨kv', hm2, hp2, he2⟩
      · exact ⟨kv0, List.mem_cons_self _ _, hp, rfl⟩
      · exact ⟨kv', List.mem_cons_of_mem _ hm2, hp2, he2⟩
    · by_cases hc : p = base ++ "/" ++ kv.1
      · have h2 : updStep base p none kv = some kv.2 := by simp [updStep, hc]
        rw [h2]
        obtain ⟨v, hv, hsh⟩ := foldl_updStep_some rest base p kv.2
        refine ⟨v, hv, ?_⟩
        rcases hsh with rfl | ⟨kv', hm2, hp2, he2⟩
        · exact ⟨kv, List.mem_cons_self _ _, hc, rfl⟩
        · exact ⟨kv', List.mem_cons_of_mem _ hm2, hp2, he2⟩
      · have h2 : updStep base p none kv = none := by simp [updStep, hc]
        rw [h2]
        obtain ⟨v, hv, kv', hm2, hp2, he2⟩ := ih kv0 hm' hp
        exact ⟨v, hv, kv', List.mem_cons_of_mem _ hm2, hp2, he2⟩

/-- An overwriting transformer applied twice equals itself applied once. -/
theorem overwriting_idem (U : Store → Store) (h : Overwriting U) (s : Store) :
    U (U s) = U s := by
  funext p
  rcases h p with hp | ⟨v, hv⟩
  · rw [hp (U s)]
  · rw [hv (U s), hv s]

/-- Overwriting transformers compose. -/
theorem overwriting_comp (U V : Store → Store) (hU : Overwriting U)
    (hV : Overwriting V) : Overwriting (fun s => V (U s)) := by
  intro p
  rcases hV p with hVp | ⟨v, hv⟩
  · rcases hU p with hUp | ⟨w, hw⟩
    · refine Or.inl (fun s => ?_)
      show V (U s) p = s p
      rw [hVp (U s), hUp s]
    · refine Or.inr ⟨w, fun s => ?_⟩
      show V (U s) p = w
      rw [hVp (U s), hw s]
  · exact Or.inr ⟨v, fun s => hv (U s)⟩

/-- A bulk merge is an overwriting transformer. -/
theorem overwriting_storeUpdate (base : String) (kvs : List (String × Val)) :
    Overwriting (fun s => storeUpdate s base kvs) := by
  intro p
  cases h : kvs.foldl (updStep base p) none with
  | none =>
    refine Or.inl (fun s => ?_)
    show storeUpdate s base kvs p = s p
    rw [storeUpdate_apply, foldl_updStep_init, h]
  | some v =>
    refine Or.inr ⟨some v, fun s => ?_⟩
    show storeUpdate s base kvs p = some v
    rw [storeUpdate_apply, foldl_updStep_init, h]

/-- Guarding an overwriting transformer by a state-independent condition
keeps it overwriting. -/
theorem overwriting_ite (U : Store → Store) (c : Prop) [Decidable c]
    (h : Overwriting U) : Overwriting (fun s => if c then U s else s) := by
  by_cases hc : c
  · intro p
    rcases h p with h1 | ⟨v, hv⟩
    · exact Or.inl (fun s => by simp [hc, h1 s])
    · exact Or.inr ⟨v, fun s => by simp [hc, hv s]⟩
  · intro p
    exact Or.inl (fun s => by simp [hc])

/-- The institutions write of one batch is overwriting. -/
theorem overwriting_process_institutions (results : List PersonRecord) :
    Overwriting (process_institutions results) := by
  show Overwriting (fun s =>
    if (instDict results).length > 0 then
      storeUpdate s "institutions"
        ((instDict results).map (fun kv => (kv.1, Val.s (some kv.2))))
    else s)
  exact overwriting_ite _ _ (overwriting_storeUpdate _ _)

/-- The students write of one batch is overwriting. -/
theorem overwriting_process_students (results : List PersonRecord) :
    Overwriting (process_students results) := by
  show Overwriting (fun s =>
    if (studentDict results).length > 0 then
      storeUpdate s "students" (studentDict results)
    else s)
  exact overwriting_ite _ _ (overwriting_storeUpdate _ _)

/-- C9: institution and student upserts are idempotent: syncing the same
valid record twice leaves the store, and in particular the institution path
and the deterministic student path, exactly as syncing it once, since the
second run writes the same values to the same paths. -/
theorem C9_sync_idempotent : ∀ (r : PersonRecord) (s : Store),
    check_result r = true →
    sync_record r (sync_record r s) = sync_record r s := by
  intro r s _
  have hC : Overwriting
      (fun t => process_students [r] (process_institutions [r] t)) :=
    overwriting_comp _ _ (overwriting_process_institutions [r])
      (overwriting_process_students [r])
  exact overwriting_idem _ hC s

/-- C9 witness: idempotence at a concrete valid record over the empty
store. -/
theorem C9_sync_idempotent_witness :
    check_result rGood = true
    ∧ sync_record rGood (sync_record rGood emptyStore)
        = sync_record rGood emptyStore :=
  ⟨by decide, C9_sync_idempotent rGood emptyStore (by decide)⟩

/-- Appending a string on the left is injective. -/
theorem string_append_cancel_left : ∀ (a b c : String),
    a ++ b = a ++ c → b = c := by
  intro a b c h
  cases a with | mk ad =>
  cases b with | mk bd =>
  cases c with | mk cd =>
  have hd : ad ++ bd = ad ++ cd := congrArg String.data h
  exact congrArg String.mk (List.append_cancel_left hd)

/-- C4 (amended): the subject map of a payload is written to the fixed path
subjects by a merging update, not a replacing set: an empty map writes
nothing, paths under subjects whose key is not in the map keep their prior
content, and every key of the map ends up bound to a value carried by the
map. -/
theorem C4_subjects_merge : ∀ (subs : List (String × String)) (s : Store)
    (p : String) (k v : String),
    (subs = [] → dump_subjects subs s = s)
    ∧ ((∀ kv, kv ∈ subs → ¬ p = "subjects/" ++ kv.1) →
        dump_subjects subs s p = s p)
    ∧ ((k, v) ∈ subs →
        ∃ w, dump_subjects subs s ("subjects/" ++ k) = some (Val.s (some w))
          ∧ (k, w) ∈ subs) := by
  intro subs s p k v
  refine ⟨?_, ?_, ?_⟩
  · intro h; subst h; rfl
  · intro h
    unfold dump_subjects
    by_cases hl : subs.length > 0
    · rw [if_pos hl, storeUpdate_apply]
      apply foldl_updStep_no_match
      intro kv hm
      rcases List.mem_map.mp hm with ⟨kv0, hm0, rfl⟩
      exact h kv0 hm0
    · rw [if_neg hl]
  · intro hm
    have hl : subs.length > 0 := by
      cases subs with
      | nil => exact absurd hm (List.not_mem_nil _)
      | cons a t => simp
    unfold dump_subjects
    rw [if_pos hl, storeUpdate_apply]
    have hmem : ((k, Val.s (some v)) : String × Val)
        ∈ subs.map (fun kv => (kv.1, Val.s (some kv.2))) :=
      List.mem_map.mpr ⟨(k, v), hm, rfl⟩
    obtain ⟨w', hfold, kv', hm', hp', he'⟩ :=
      foldl_updStep_mem_some _ "subjects" ("subjects/" ++ k) _ hmem rfl
    rw [foldl_updStep_init, hfold]
    rcases List.mem_map.mp hm' with ⟨kv0, hm0, heq⟩
    refine ⟨kv0.2, ?_, ?_⟩
    · show some w' = some (Val.s (some kv0.2))
      rw [← he', ← heq]
    · have hk : ("subjects/" : String) ++ k = "subjects/" ++ kv0.1 := by
        rw [← heq] at hp'
        exact hp'
      have hk2 : k = kv0.1 := string_append_cancel_left _ _ _ hk
      rw [hk2]
      exact hm0

/-- C4 counterexample: writing the subject map {NEW -> NewName} over a store
already holding subjects/OLD leaves the old binding in place, so the content
at subjects does not equal the payload's map, contradicting the replacing
set the claim describes. -/
theorem C4_subjects_counterexample :
    dump_subjects [("NEW", "NewName")] priorStore "subjects/NEW"
      = some (Val.s (some "NewName"))
    ∧ dump_subjects [("NEW", "NewName")] priorStore "subjects/OLD"
        = some (Val.s (some "OldName")) := by
  exact ⟨rfl, rfl⟩

/-- C4 witness: the merge characterization at a concrete map and store. -/
theorem C4_subjects_witness :
    dump_subjects [] priorStore = priorStore
    ∧ dump_subjects [("NEW", "NewName")] priorStore "subjects/OLD"
        = priorStore "subjects/OLD"
    ∧ (∃ w, dump_subjects [("NEW", "NewName")] priorStore "subjects/NEW"
        = some (Val.s (some w)) ∧ ("NEW", w) ∈ [("NEW", "NewName")]) := by
  refine ⟨(C4_subjects_merge [] priorStore "x" "x" "x").1 rfl,
    (C4_subjects_merge [("NEW", "NewName")] priorStore "subjects/OLD"
      "x" "x").2.1 ?_,
    (C4_subjects_merge [("NEW", "NewName")] priorStore "x"
      "NEW" "NewName").2.2 (by decide)⟩
  intro kv hm
  rcases List.mem_singleton.mp hm with rfl
  decide

/-- Dict assignment makes the assigned binding present. -/
theorem assocSet_mem_self {V : Type} (d : List (String × V)) (k : String)
    (v : V) : (k, v) ∈ assocSet d k v := by
  unfold assocSet
  by_cases h : d.any (fun kv => kv.1 == k)
  · rw [if_pos h]
    obtain ⟨kv, hm, hk⟩ := List.any_eq_true.mp h
    refine List.mem_map.mpr ⟨kv, hm, ?_⟩
    simp [hk]
  · rw [if_neg h]
    exact List.mem_append_right _ (List.mem_singleton.mpr rfl)

/-- Dict assignment keeps every key that was already bound bound. -/
theorem assocSet_key_stable {V : Type} (d : List (String × V))
    (k c : String) (v : V) (h : ∃ w, (c, w) ∈ d) :
    ∃ w, (c, w) ∈ assocSet d k v := by
  by_cases hck : c = k
  · subst hck
    exact ⟨v, assocSet_mem_self d c v⟩
  · obtain ⟨w, hw⟩ := h
    unfold assocSet
    by_cases ha : d.any (fun kv => kv.1 == k)
    · rw [if_pos ha]
      refine ⟨w, List.mem_map.mpr ⟨(c, w), hw, ?_⟩⟩
      simp [hck]
    · rw [if_neg ha]
      exact ⟨w, List.mem_append_left _ hw⟩

/-- Every key of an assigned dict is the assigned key or a key of the prior
dict. -/
theorem assocSet_keys {V : Type} (d : List (String × V)) (k : String)
    (v : V) (kv' : String × V) (h : kv' ∈ assocSet d k v) :
    kv'.1 = k ∨ ∃ w, (kv'.1, w) ∈ d := by
  unfold assocSet at h
  by_cases ha : d.any (fun kv => kv.1 == k)
  · rw [if_pos ha] at h
    obtain ⟨kv0, hm0, he0⟩ := List.mem_map.mp h
    by_cases hk : (kv0.1 == k) = true
    · rw [if_pos hk] at he0
      rw [← he0]
      exact Or.inl rfl
    · rw [if_neg hk] at he0
      rw [← he0]
      exact Or.inr ⟨kv0.2, hm0⟩
  · rw [if_neg ha] at h
    rcases List.mem_append.mp h with h1 | h2
    · exact Or.inr ⟨kv'.2, h1⟩
    · rw [List.mem_singleton.mp h2]
      exact Or.inl rfl

/-- Folding the institution loop preserves and creates code bindings: a valid
record with a name in the remaining batch, or a code already bound, ends up
bound in the final dict. -/
theorem instDict_aux_mem : ∀ (results : List PersonRecord)
    (d : List (String × String)) (r : PersonRecord),
    ((r ∈ results ∧ validWithName r = true)
      ∨ ∃ n, (instCodeStr r, n) ∈ d) →
    ∃ n, (instCodeStr r, n) ∈ results.foldl instFold d := by
  intro results
  induction results with
  | nil =>
    intro d r h
    rcases h with ⟨hm, _⟩ | h2
    · exact absurd hm (List.not_mem_nil r)
    · exact h2
  | cons q rest ih =>
    intro d r h
    rw [List.foldl_cons]
    apply ih
    rcases h with ⟨hm, hv⟩ | ⟨n, hn⟩
    · rcases List.mem_cons.mp hm with rfl | hm'
      · right
        refine ⟨optStr r.institution_name, ?_⟩
        unfold instFold
        rw [if_pos hv]
        exact assocSet_mem_self d _ _
      · exact Or.inl ⟨hm', hv⟩
    · right
      unfold instFold
      by_cases hq : validWithName q = true
      · rw [if_pos hq]
        exact assocSet_key_stable d _ _ _ ⟨n, hn⟩
      · rw [if_neg hq]
        exact ⟨n, hn⟩

/-- A valid record with a name contributes its code to the collected dict. -/
theorem instDict_mem_of_valid (results : List PersonRecord)
    (r : PersonRecord) (hm : r ∈ results) (hv : validWithName r = true) :
    ∃ n, (instCodeStr r, n) ∈ instDict results :=
  instDict_aux_mem results [] r (Or.inl ⟨hm, hv⟩)

/-- Every binding of the folded dict comes from the prior dict or from a
valid record with a name in the batch. -/
theorem instDict_keys_aux : ∀ (results : List PersonRecord)
    (d : List (String × String)) (c n : String),
    (c, n) ∈ results.foldl instFold d →
    (∃ w, (c, w) ∈ d)
    ∨ ∃ q, q ∈ results ∧ validWithName q = true ∧ instCodeStr q = c := by
  intro results
  induction results with
  | nil => intro d c n h; exact Or.inl ⟨n, h⟩
  | cons q rest ih =>
    intro d c n h
    rw [List.foldl_cons] at h
    rcases ih _ c n h with ⟨w, hw⟩ | h2
    · unfold instFold at hw
      by_cases hq : validWithName q = true
      · rw [if_pos hq] at hw
        rcases assocSet_keys d _ _ (c, w) hw with h1 | ⟨w', hw'⟩
        · exact Or.inr ⟨q, List.mem_cons_self _ _, hq, h1.symm⟩
        · exact Or.inl ⟨w', hw'⟩
      · rw [if_neg hq] at hw
        exact Or.inl ⟨w, hw⟩
    · rcases h2 with ⟨q', hm', hv', hc'⟩
      exact Or.inr ⟨q', List.mem_cons_of_mem _ hm', hv', hc'⟩

/-- Every key of the collected dict is the code of some valid named record of
the batch. -/
theorem instDict_keys (results : List PersonRecord) (c n : String)
    (h : (c, n) ∈ instDict results) :
    ∃ q, q ∈ results ∧ validWithName q = true ∧ instCodeStr q = c := by
  rcases instDict_keys_aux results [] c n h with ⟨w, hw⟩ | h2
  · exact absurd hw (List.not_mem_nil _)
  · exact h2

/-- C5 (amended): the institutions write collects code -> name over the
records that satisfy the validity invariant and additionally carry a
non-empty institution name, into one mapping written by a single bulk upsert
at institutions; records failing this guard are excluded without aborting the
batch, every passing record's code ends up bound, and no path outside the
contributed codes is touched. -/
theorem C5_institutions_upsert : ∀ (results : List PersonRecord) (s : Store)
    (r : PersonRecord) (p : String),
    (¬ validWithName r = true →
      process_institutions (r :: results) s = process_institutions results s)
    ∧ (r ∈ results → validWithName r = true →
        ∃ n, process_institutions results s
          ("institutions/" ++ instCodeStr r) = some (Val.s (some n)))
    ∧ ((∀ q, q ∈ results → validWithName q = true →
          ¬ p = "institutions/" ++ instCodeStr q) →
        process_institutions results s p = s p) := by
  intro results s r p
  refine ⟨?_, ?_, ?_⟩
  · intro hv
    have h1 : instDict (r :: results) = instDict results := by
      unfold instDict
      rw [List.foldl_cons]
      have h2 : instFold [] r = [] := by
        unfold instFold
        rw [if_neg hv]
      rw [h2]
    simp only [process_institutions, h1]
  · intro hm hv
    obtain ⟨n0, hn0⟩ := instDict_mem_of_valid results r hm hv
    have hl : (instDict results).length > 0 := by
      cases hd : instDict results with
      | nil => rw [hd] at hn0; exact absurd hn0 (List.not_mem_nil _)
      | cons a t => simp
    simp only [process_institutions]
    rw [if_pos hl, storeUpdate_apply]
    have hmem : ((instCodeStr r, Val.s (some n0)) : String × Val)
        ∈ (instDict results).map (fun kv => (kv.1, Val.s (some kv.2))) :=
      List.mem_map.mpr ⟨(instCodeStr r, n0), hn0, rfl⟩
    obtain ⟨v, hv2, kv', hm', hp', he'⟩ :=
      foldl_updStep_mem_some _ "institutions"
        ("institutions/" ++ instCodeStr r) _ hmem rfl
    rw [foldl_updStep_init, hv2]
    rcases List.mem_map.mp hm' with ⟨kv0, hm0, heq⟩
    refine ⟨kv0.2, ?_⟩
    show some v = some (Val.s (some kv0.2))
    rw [← he', ← heq]
  · intro h
    simp only [process_institutions]
    by_cases hl : (instDict results).length > 0
    · rw [if_pos hl, storeUpdate_apply]
      apply foldl_updStep_no_match
      intro kv hm
      rcases List.mem_map.mp hm with ⟨kv0, hm0, rfl⟩
      obtain ⟨q, hmq, hvq, hcq⟩ := instDict_keys results kv0.1 kv0.2 hm0
      have h3 := h q hmq hvq
      rw [hcq] at h3
      exact h3
    · rw [if_neg hl]

/-- C5 counterexample: a record passing the section 3 validity invariant
(code, batch and roll number present) whose institution name is None
contributes nothing: after the write its code is unbound under institutions,
where the claim demands every valid record contribute its pair. -/
theorem C5_institutions_counterexample :
    check_result rNoName = true
    ∧ process_institutions [rNoName] emptyStore
        ("institutions/" ++ instCodeStr rNoName) = none := by
  exact ⟨by decide, rfl⟩

/-- C5 witness: the upsert characterization at a concrete batch. -/
theorem C5_institutions_witness :
    process_institutions (rNoName :: [rGood]) emptyStore
      = process_institutions [rGood] emptyStore
    ∧ (∃ n, process_institutions [rGood] emptyStore
        ("institutions/" ++ instCodeStr rGood) = some (Val.s (some n)))
    ∧ process_institutions [rGood] emptyStore "unrelated/path"
        = emptyStore "unrelated/path" := by
  refine ⟨(C5_institutions_upsert [rGood] emptyStore rNoName "x").1
      (by decide),
    (C5_institutions_upsert [rGood] emptyStore rGood "x").2.1
      (by decide) (by decide),
    (C5_institutions_upsert [rGood] emptyStore rGood "unrelated/path").2.2
      ?_⟩
  intro q hq hv
  rcases List.mem_singleton.mp hq with rfl
  decide

/-- The image loop touches only the upload bookkeeping, never the store, the
key counter, the cursor or the completion trace. -/
theorem dump_images_loop_frame (fails : Nat → Bool) :
    ∀ (rs : List PersonRecord) (st : RunState),
    (dump_images_loop fails rs st).store = st.store
    ∧ (dump_images_loop fails rs st).keyCounter = st.keyCounter
    ∧ (dump_images_loop fails rs st).last = st.last
    ∧ (dump_images_loop fails rs st).processed = st.processed := by
  intro rs
  induction rs with
  | nil => intro st; exact ⟨rfl, rfl, rfl, rfl⟩
  | cons r rest ih =>
    intro st
    unfold dump_images_loop
    by_cases hc : (check_result r && r.image.isSome) = true
    · rw [if_pos hc]
      by_cases hf : fails st.attempts = true
      · rw [if_pos hf]; exact ⟨rfl, rfl, rfl, rfl⟩
      · rw [if_neg hf]; exact ih _
    · rw [if_neg hc]; exact ih st

/-- The image stage touches only the upload bookkeeping. -/
theorem dump_images_frame (fails : Nat → Bool) (rs : List PersonRecord)
    (st : RunState) :
    (dump_images fails rs st).store = st.store
    ∧ (dump_images fails rs st).keyCounter = st.keyCounter
    ∧ (dump_images fails rs st).last = st.last
    ∧ (dump_images fails rs st).processed = st.processed := by
  unfold dump_images
  by_cases h : st.img_error = true
  · rw [if_pos h]; exact ⟨rfl, rfl, rfl, rfl⟩
  · rw [if_neg h]; exact dump_images_loop_frame fails rs st

/-- start never moves the cursor nor records a completion. -/
theorem start_last_processed (env : Env) (world : World) (d : DumpData)
    (st : RunState) :
    (start env world d st).last = st.last
    ∧ (start env world d st).processed = st.processed := by
  simp only [start]
  by_cases hd : env.skip_data = true <;> by_cases hi : env.skip_images = true <;>
    simp [hd, hi, dump_images_frame]

/-- Once the sticky flag is set, start uploads nothing more and keeps the
flag set. -/
theorem start_img_sticky (env : Env) (world : World) (d : DumpData)
    (st : RunState) (h : st.img_error = true) :
    (start env world d st).uploaded = st.uploaded
    ∧ (start env world d st).img_error = true := by
  simp only [start]
  by_cases hd : env.skip_data = true <;> by_cases hi : env.skip_images = true <;>
    simp [hd, hi, dump_images, h]

/-- The store and key counter produced by start depend only on the incoming
store and key counter, never on the upload bookkeeping or the failure
oracle. -/
theorem start_data_eq (env : Env) (world : World) (f1 f2 : Nat → Bool)
    (d : DumpData) (st1 st2 : RunState) (hs : st1.store = st2.store)
    (hk : st1.keyCounter = st2.keyCounter) :
    (start env { world with fails := f1 } d st1).store
      = (start env { world with fails := f2 } d st2).store
    ∧ (start env { world with fails := f1 } d st1).keyCounter
      = (start env { world with fails := f2 } d st2).keyCounter := by
  simp only [start]
  by_cases hd : env.skip_data = true <;> by_cases hi : env.skip_images = true <;>
    simp [hd, hi, dump_images_frame, dump_results, hs, hk]

/-- Unfolding one loop iteration whose fetch is falsy: the entry is skipped
and the loop continues. -/
theorem mainLoop_skip_eq (env : Env) (world : World) (e : Entry)
    (rest : List Entry) (st : RunState)
    (h : fetch_parse world e = StepOut.skip) :
    mainLoop env world (e :: rest) st = mainLoop env world rest st := by
  simp only [mainLoop, h]

/-- Unfolding one loop iteration whose parse raises: the exception unwinds to
the top-level handler and the remaining batch is abandoned. -/
theorem mainLoop_abort_eq (env : Env) (world : World) (e : Entry)
    (rest : List Entry) (st : RunState)
    (h : fetch_parse world e = StepOut.abort) :
    mainLoop env world (e :: rest) st = st := by
  simp only [mainLoop, h]

/-- Unfolding one successful loop iteration: start runs, then the cursor is
persisted equal to the entry and the completion trace extended. -/
theorem mainLoop_ok_eq (env : Env) (world : World) (e : Entry)
    (rest : List Entry) (st : RunState) (subs : List (String × String))
    (results : List PersonRecord)
    (h : fetch_parse world e = StepOut.ok subs results) :
    mainLoop env world (e :: rest) st
      = mainLoop env world rest
        { start env world ⟨e, subs, results⟩ st with
          last := some e,
          processed := (start env world ⟨e, subs, results⟩ st).processed
            ++ [e] } := by
  simp only [mainLoop, h]

/-- With the sticky flag set at entry, a whole run uploads nothing more and
leaves the flag set. -/
theorem mainLoop_img_sticky (env : Env) (world : World) :
    ∀ (entries : List Entry) (st : RunState), st.img_error = true →
    (mainLoop env world entries st).uploaded = st.uploaded
    ∧ (mainLoop env world entries st).img_error = true := by
  intro entries
  induction entries with
  | nil => intro st h; exact ⟨rfl, h⟩
  | cons e rest ih =>
    intro st h
    cases hfp : fetch_parse world e with
    | skip => rw [mainLoop_skip_eq env world e rest st hfp]; exact ih st h
    | abort => rw [mainLoop_abort_eq env world e rest st hfp]; exact ⟨rfl, h⟩
    | ok subs results =>
      rw [mainLoop_ok_eq env world e rest st subs results hfp]
      have hs := start_img_sticky env world ⟨e, subs, results⟩ st h
      obtain ⟨hu, hflag⟩ := ih
        { start env world ⟨e, subs, results⟩ st with
          last := some e,
          processed := (start env world ⟨e, subs, results⟩ st).processed
            ++ [e] }
        hs.2
      constructor
      · rw [hu]; exact hs.1
      · exact hflag

/-- The store, key counter, cursor and completion trace of a run do not
depend on the upload bookkeeping of the starting state nor on the failure
oracle. -/
theorem mainLoop_data_eq (env : Env) (world : World) (f1 f2 : Nat → Bool) :
    ∀ (entries : List Entry) (st1 st2 : RunState),
    st1.store = st2.store → st1.keyCounter = st2.keyCounter →
    st1.last = st2.last → st1.processed = st2.processed →
    (mainLoop env { world with fails := f1 } entries st1).store
      = (mainLoop env { world with fails := f2 } entries st2).store
    ∧ (mainLoop env { world with fails := f1 } entries st1).keyCounter
      = (mainLoop env { world with fails := f2 } entries st2).keyCounter
    ∧ (mainLoop env { world with fails := f1 } entries st1).last
      = (mainLoop env { world with fails := f2 } entries st2).last
    ∧ (mainLoop env { world with fails := f1 } entries st1).processed
      = (mainLoop env { world with fails := f2 } entries st2).processed := by
  intro entries
  induction entries with
  | nil => intro st1 st2 hs hk hl hp; exact ⟨hs, hk, hl, hp⟩
  | cons e rest ih =>
    intro st1 st2 hs hk hl hp
    have hfpe : fetch_parse { world with fails := f1 } e
        = fetch_parse { world with fails := f2 } e := rfl
    cases hcase : fetch_parse { world with fails := f2 } e with
    | skip =>
      have hcase1 : fetch_parse { world with fails := f1 } e = StepOut.skip := by
        rw [hfpe, hcase]
      rw [mainLoop_skip_eq _ _ _ _ _ hcase1, mainLoop_skip_eq _ _ _ _ _ hcase]
      exact ih st1 st2 hs hk hl hp
    | abort =>
      have hcase1 : fetch_parse { world with fails := f1 } e = StepOut.abort := by
        rw [hfpe, hcase]
      rw [mainLoop_abort_eq _ _ _ _ _ hcase1, mainLoop_abort_eq _ _ _ _ _ hcase]
      exact ⟨hs, hk, hl, hp⟩
    | ok subs results =>
      have hcase1 : fetch_parse { world with fails := f1 } e
          = StepOut.ok subs results := by
        rw [hfpe, hcase]
      rw [mainLoop_ok_eq _ _ _ _ _ _ _ hcase1, mainLoop_ok_eq _ _ _ _ _ _ _ hcase]
      have hd := start_data_eq env world f1 f2 ⟨e, subs, results⟩ st1 st2 hs hk
      have hlp1 := start_last_processed env { world with fails := f1 }
        ⟨e, subs, results⟩ st1
      have hlp2 := start_last_processed env { world with fails := f2 }
        ⟨e, subs, results⟩ st2
      apply ih
      · exact hd.1
      · exact hd.2
      · rfl
      · show (start env { world with fails := f1 } ⟨e, subs, results⟩
            st1).processed ++ [e]
          = (start env { world with fails := f2 } ⟨e, subs, results⟩
            st2).processed ++ [e]
        rw [hlp1.2, hlp2.2, hp]

/-- C6: once an asset upload fails the sticky flag is set and no further
upload is attempted for the remaining records of the current entry (the loop
breaks) nor for any later entry of the run (the stage is skipped outright),
the failure does not crash the pipeline, and the store writes of the
remaining entries are exactly what they would have been without the flag or
with any other failure oracle. -/
theorem C6_upload_sticky : ∀ (env : Env) (world : World)
    (f1 f2 : Nat → Bool) (entries : List Entry) (st : RunState)
    (r : PersonRecord) (rest : List PersonRecord),
    ((mainLoop env world entries { st with img_error := true }).uploaded
      = st.uploaded)
    ∧ ((mainLoop env world entries { st with img_error := true }).img_error
      = true)
    ∧ ((mainLoop env { world with fails := f1 } entries
          { st with img_error := true }).store
        = (mainLoop env { world with fails := f2 } entries
          { st with img_error := false }).store)
    ∧ (st.img_error = false → (check_result r && r.image.isSome) = true →
        world.fails st.attempts = true →
        dump_images world.fails (r :: rest) st
          = { st with attempts := st.attempts + 1, img_error := true }) := by
  intro env world f1 f2 entries st r rest
  refine ⟨?_, ?_, ?_, ?_⟩
  · exact (mainLoop_img_sticky env world entries _ rfl).1
  · exact (mainLoop_img_sticky env world entries _ rfl).2
  · exact (mainLoop_data_eq env world f1 f2 entries
      { st with img_error := true } { st with img_error := false }
      rfl rfl rfl rfl).1
  · intro hflag hc hf
    simp [dump_images, dump_images_loop, hflag, hc, hf]

/-- C6 witness: the sticky-upload theorem at a concrete run whose first
upload attempt fails on a valid record carrying an image. -/
theorem C6_upload_sticky_witness :
    ((mainLoop env0 worldFail [] { st0 with img_error := true }).uploaded
      = st0.uploaded)
    ∧ ((mainLoop env0 worldFail [] { st0 with img_error := true }).img_error
      = true)
    ∧ ((mainLoop env0 { worldFail with fails := worldFail.fails } []
          { st0 with img_error := true }).store
        = (mainLoop env0 { worldFail with fails := worldFail.fails } []
          { st0 with img_error := false }).store)
    ∧ (dump_images worldFail.fails (rGood :: []) st0
        = { st0 with attempts := st0.attempts + 1, img_error := true }) := by
  have h := C6_upload_sticky env0 worldFail worldFail.fails worldFail.fails
    [] st0 rGood []
  exact ⟨h.1, h.2.1, h.2.2.1, h.2.2.2 rfl (by decide) rfl⟩

/-- Processing an entry that fetches and parses successfully runs start and
then advances the cursor to that entry, appending it to the completion
trace. -/
theorem mainLoop_cons_of_ok (env : Env) (world : World) (e : Entry)
    (rest : List Entry) (st : RunState) (h : fetchParseOk world e) :
    ∃ stm, mainLoop env world (e :: rest) st = mainLoop env world rest stm
      ∧ stm.processed = st.processed ++ [e] ∧ stm.last = some e := by
  obtain ⟨subs, results, hfp⟩ := h
  refine ⟨{ start env world ⟨e, subs, results⟩ st with
      last := some e,
      processed := (start env world ⟨e, subs, results⟩ st).processed ++ [e] },
    mainLoop_ok_eq env world e rest st subs results hfp, ?_, rfl⟩
  show (start env world ⟨e, subs, results⟩ st).processed ++ [e]
      = st.processed ++ [e]
  rw [(start_last_processed env world ⟨e, subs, results⟩ st).2]

/-- C2: the driver processes the diffed subset oldest first, the reverse of
the walker's newest-first order, and persists the cursor equal to an entry
only after that entry's sync and upload complete: on a listing [a, b, c]
with stored cursor c and both newer entries fetching and parsing
successfully, the run completes b then a, in that order, and the final
cursor is a. -/
theorem C2_pipeline_oldest_first : ∀ (env : Env) (world : World)
    (a b c : Entry) (st : RunState),
    env.force_all = false → st.last = some c → st.processed = [] →
    a ≠ c → b ≠ c →
    fetchParseOk world a → fetchParseOk world b →
    (mainRun env world [a, b, c] st).processed = [b, a]
    ∧ (mainRun env world [a, b, c] st).last = some a := by
  intro env world a b c st hforce hlast hproc hac hbc hfa hfb
  have hdiff : new_result_pdfs [a, b, c] st.last env.force_all = [a, b] := by
    rw [hlast, hforce]
    show diffLoop c [a, b, c] = [a, b]
    simp [diffLoop, hac, hbc]
  unfold mainRun
  rw [hdiff]
  have hrev : ([a, b] : List Entry).reverse = [b, a] := rfl
  rw [hrev]
  obtain ⟨st1, hst1, hp1, hl1⟩ := mainLoop_cons_of_ok env world b [a] st hfb
  rw [hst1]
  obtain ⟨st2, hst2, hp2, hl2⟩ := mainLoop_cons_of_ok env world a [] st1 hfa
  rw [hst2]
  constructor
  · show st2.processed = [b, a]
    rw [hp2, hp1, hproc]
    rfl
  · exact hl2

/-- C2 witness: the scenario run on three concrete entries in a world where
every fetch succeeds. -/
theorem C2_pipeline_oldest_first_witness :
    (mainRun env0 worldOk [wA, wB, wC] { st0 with last := some wC }).processed
      = [wB, wA]
    ∧ (mainRun env0 worldOk [wA, wB, wC] { st0 with last := some wC }).last
      = some wA := by
  exact C2_pipeline_oldest_first env0 worldOk wA wB wC
    { st0 with last := some wC } rfl rfl rfl (by decide) (by decide)
    ⟨[], [], rfl⟩ ⟨[], [], rfl⟩

/-- With both skip options set a run never touches the store or the upload
log. -/
theorem mainLoop_skip_frame (env : Env) (world : World)
    (hd : env.skip_data = true) (hi : env.skip_images = true) :
    ∀ (entries : List Entry) (st : RunState),
    (mainLoop env world entries st).store = st.store
    ∧ (mainLoop env world entries st).uploaded = st.uploaded := by
  intro entries
  induction entries with
  | nil => intro st; exact ⟨rfl, rfl⟩
  | cons e rest ih =>
    intro st
    cases hfp : fetch_parse world e with
    | skip => rw [mainLoop_skip_eq env world e rest st hfp]; exact ih st
    | abort => rw [mainLoop_abort_eq env world e rest st hfp]; exact ⟨rfl, rfl⟩
    | ok subs results =>
      rw [mainLoop_ok_eq env world e rest st subs results hfp]
      have hstart : start env world ⟨e, subs, results⟩ st = st := by
        simp [start, hd, hi]
      rw [hstart]
      exact ih _

/-- C10: with skip-data and skip-images both set, start is the identity and a
run performs no store write and no upload at all, yet a successfully fetched
and parsed entry still gets the cursor persisted equal to it, permanently
marking it processed although none of its records, subjects or images were
written. -/
theorem C10_skip_flags_cursor : ∀ (env : Env) (world : World) (d : DumpData)
    (entries : List Entry) (st : RunState) (e : Entry),
    env.skip_data = true → env.skip_images = true →
    (start env world d st = st)
    ∧ ((mainLoop env world entries st).store = st.store
        ∧ (mainLoop env world entries st).uploaded = st.uploaded)
    ∧ (fetchParseOk world e → (mainLoop env world [e] st).last = some e) := by
  intro env world d entries st e hd hi
  refine ⟨by simp [start, hd, hi],
    mainLoop_skip_frame env world hd hi entries st, ?_⟩
  intro h
  obtain ⟨subs, results, hfp⟩ := h
  rw [mainLoop_ok_eq env world e [] st subs results hfp]
  have hstart : start env world ⟨e, subs, results⟩ st = st := by
    simp [start, hd, hi]
  rw [hstart]
  rfl

/-- C10 witness: the skip-flags theorem at a concrete entry, batch and
state. -/
theorem C10_skip_flags_cursor_witness :
    (start envSkipAll worldOk ⟨wA, [("15101", "Maths")], [rGood]⟩ st0 = st0)
    ∧ ((mainLoop envSkipAll worldOk [wA, wB] st0).store = st0.store
        ∧ (mainLoop envSkipAll worldOk [wA, wB] st0).uploaded = st0.uploaded)
    ∧ (mainLoop envSkipAll worldOk [wA] st0).last = some wA := by
  have h := C10_skip_flags_cursor envSkipAll worldOk
    ⟨wA, [("15101", "Maths")], [rGood]⟩ [wA, wB] st0 wA rfl rfl
  exact ⟨h.1, h.2.1, h.2.2 ⟨[], [], rfl⟩⟩

/-- C1 (code bug): on a listing [e1, e2] with no stored cursor, where
fetching the older entry e2 fails and e1 succeeds, the run quietly skips e2,
processes e1 and persists the cursor e1; the next run's diff against e1 is
then empty, so the failed entry e2 is never retried, contradicting the
claimed guarantee that the cursor never advances past a failed entry. -/
theorem C1_cursor_advances_past_failed_fetch :
    (mainRun env0 worldC1 [e1, e2] st0).last = some e1
    ∧ new_result_pdfs [e1, e2] (some e1) false = [] := by
  exact ⟨rfl, rfl⟩

end GRC

